import Mathlib

/-!
Verification of the shard identifier core (`libs/pageserver_api/src/shard.rs`).

The development shallowly embeds the Rust source: strings are `List Char`,
`u8` values are `Fin 256`, byte buffers are `List (Fin 256)`, and fallible
parsers return `Except FromHexError`.  The external `utils::id::TenantId`
type is not part of the sources; it is modelled from the spec as 16 raw
bytes with a lowercase-hex textual form.
-/

deriving instance DecidableEq for Except

namespace Neon

/-- Error type of the `hex` crate (`hex::FromHexError`), used by all textual
decoders in the source. -/
inductive FromHexError where
  | invalidHexCharacter : Char → Nat → FromHexError
  | oddLength : FromHexError
  | invalidStringLength : FromHexError
deriving DecidableEq, Repr

/-- Value of a single hex digit, mirroring `hex::val`: accepts `0-9`, `a-f`
and `A-F`. -/
def hexVal (c : Char) : Option (Fin 16) :=
  let n := c.toNat
  if h : 65 ≤ n ∧ n ≤ 70 then some ⟨n - 55, by omega⟩
  else if h : 97 ≤ n ∧ n ≤ 102 then some ⟨n - 87, by omega⟩
  else if h : 48 ≤ n ∧ n ≤ 57 then some ⟨n - 48, by omega⟩
  else none

/-- Lowercase hex digit for a nibble, as produced by Rust `{:02x}` formatting. -/
def hexDigitChar (n : Fin 16) : Char :=
  if n.val < 10 then Char.ofNat (48 + n.val) else Char.ofNat (87 + n.val)

/-- Combine a high and a low nibble into a byte, as in `hi << 4 | lo`. -/
def mkByte (hi lo : Fin 16) : Fin 256 :=
  ⟨hi.val * 16 + lo.val, by have h1 := hi.isLt; have h2 := lo.isLt; omega⟩

/-- Two-lowercase-hex-digit rendering of one byte: Rust `format!("{:02x}", b)`
for a `u8`. -/
def hexByte (b : Fin 256) : List Char :=
  [hexDigitChar ⟨b.val / 16, by have h := b.isLt; omega⟩,
   hexDigitChar ⟨b.val % 16, by omega⟩]

/-- Lowercase hex rendering of a byte buffer (two characters per byte). -/
def hexEncode (bs : List (Fin 256)) : List Char :=
  match bs with
  | [] => []
  | b :: rest => hexByte b ++ hexEncode rest

/-- Decoding loop of `hex::decode_to_slice`: consume characters two at a
time, failing with `invalidHexCharacter` at the first non-hex digit (the
index argument tracks the position for the error payload).  The caller
checks evenness of the length first, so the one-character leftover branch
mirrors the crate's `OddLength` classification. -/
def decodePairs : List Char → Nat → Except FromHexError (List (Fin 256))
  | [], _ => .ok []
  | [_], _ => .error .oddLength
  | c1 :: c2 :: rest, i =>
    match hexVal c1 with
    | none => .error (.invalidHexCharacter c1 i)
    | some hi =>
      match hexVal c2 with
      | none => .error (.invalidHexCharacter c2 (i + 1))
      | some lo =>
        match decodePairs rest (i + 2) with
        | .error e => .error e
        | .ok bs => .ok (mkByte hi lo :: bs)

/-- Model of `hex::decode_to_slice(data, out)` with `out` a buffer of
`outLen` bytes: odd input length fails with `oddLength`, a length other
than `2 * outLen` fails with `invalidStringLength`, and otherwise the
pair-decoding loop runs. -/
def decodeToSlice (outLen : Nat) (cs : List Char) : Except FromHexError (List (Fin 256)) :=
  if cs.length % 2 ≠ 0 then .error .oddLength
  else if cs.length / 2 ≠ outLen then .error .invalidStringLength
  else decodePairs cs 0

/-- Modelled from the spec: the opaque tenant identifier type
(`utils::id::TenantId`, outside these sources) is a fixed-size
16-raw-byte identifier. -/
abbrev TenantId := { l : List (Fin 256) // l.length = 16 }

/-- Modelled from the spec: `TenantId`'s view-as-16-raw-bytes
(`TenantId::as_arr`). -/
def TenantId.as_arr (t : TenantId) : List (Fin 256) := t.val

/-- Modelled from the spec: `TenantId`'s format-to-hex-string (its `Display`
form), 32 lowercase hex characters. -/
def tenantIdDisplay (t : TenantId) : List Char := hexEncode t.val

theorem decodePairs_ok_length : ∀ (cs : List Char) (i : Nat) (bs : List (Fin 256)),
    decodePairs cs i = .ok bs → bs.length * 2 = cs.length
  | [], _, bs, h => by
    simp [decodePairs] at h
    simp [← h]
  | [_], _, _, h => by
    simp [decodePairs] at h
  | c1 :: c2 :: rest, i, bs, h => by
    simp only [decodePairs] at h
    cases h1 : hexVal c1 with
    | none => rw [h1] at h; simp at h
    | some hi =>
      rw [h1] at h
      cases h2 : hexVal c2 with
      | none => rw [h2] at h; simp at h
      | some lo =>
        rw [h2] at h
        cases h3 : decodePairs rest (i + 2) with
        | error e => rw [h3] at h; simp at h
        | ok tail =>
          rw [h3] at h
          simp only [Except.ok.injEq] at h
          have ih := decodePairs_ok_length rest (i + 2) tail h3
          simp [← h, List.length_cons]
          omega

/-- Modelled from the spec: `TenantId`'s parse-from-hex-string.  Via the
`hex` crate, a 32-character input decodes into the 16-byte buffer and any
other length fails (`invalidStringLength`, matching `FromHex for [u8; 16]`). -/
def tenantIdFromHex (cs : List Char) : Except FromHexError TenantId :=
  match h : decodeToSlice 16 cs with
  | .error e => .error e
  | .ok bs =>
    .ok ⟨bs, by
      unfold decodeToSlice at h
      split at h
      · exact absurd h (by simp)
      · split at h
        · exact absurd h (by simp)
        · have := decodePairs_ok_length cs 0 bs h
          omega⟩

/-- The composite identifier: external tenant id plus shard number and
shard count (`TenantShardId` in the source; the `u8` newtype fields
`ShardNumber`/`ShardCount` are embedded as `Fin 256`). -/
structure TenantShardId where
  tenant_id : TenantId
  shard_number : Fin 256
  shard_count : Fin 256
deriving DecidableEq

/-- Constructor `TenantShardId::unsharded`: the legacy sentinel for a tenant. -/
def TenantShardId.unsharded (tenant_id : TenantId) : TenantShardId :=
  { tenant_id := tenant_id, shard_number := 0, shard_count := 0 }

/-- Rust `u8::cmp`. -/
def cmpU8 (a b : Fin 256) : Ordering :=
  if a.val < b.val then .lt else if b.val < a.val then .gt else .eq

/-- Lexicographic byte-buffer comparison: the derived `Ord` of the tenant
identifier's raw 16-byte array. -/
def cmpBytes : List (Fin 256) → List (Fin 256) → Ordering
  | [], [] => .eq
  | [], _ :: _ => .lt
  | _ :: _, [] => .gt
  | a :: as, b :: bs =>
    match cmpU8 a b with
    | .eq => cmpBytes as bs
    | o => o

/-- The derived `Ord` of `TenantShardId`: fields compared in declaration
order `(tenant_id, shard_number, shard_count)`. -/
def TenantShardId.cmp (x y : TenantShardId) : Ordering :=
  match cmpBytes x.tenant_id.val y.tenant_id.val with
  | .eq =>
    match cmpU8 x.shard_number y.shard_number with
    | .eq => cmpU8 x.shard_count y.shard_count
    | o => o
  | o => o

/-- Rust `x <= y` for the derived `Ord`. -/
def TenantShardId.le (x y : TenantShardId) : Bool :=
  TenantShardId.cmp x y ≠ Ordering.gt

/-- Method `TenantShardId::tenant_range`: the inclusive range (modelled as
its bound pair) of every `TenantShardId` of one tenant. -/
def TenantShardId.tenant_range (tenant_id : TenantId) : TenantShardId × TenantShardId :=
  ({ tenant_id := tenant_id, shard_number := 0, shard_count := 0 },
   { tenant_id := tenant_id, shard_number := 255, shard_count := 255 })

/-- Method `TenantShardId::shard_slug`: `format!("{:02x}{:02x}", number, count)`. -/
def TenantShardId.shard_slug (x : TenantShardId) : List Char :=
  hexByte x.shard_number ++ hexByte x.shard_count

/-- The `Display` impl of `TenantShardId`: `<tenant>-NNCC` when
`shard_count != 0`, else the bare tenant identifier (legacy form). -/
def TenantShardId.display (x : TenantShardId) : List Char :=
  if x.shard_count ≠ 0 then
    tenantIdDisplay x.tenant_id ++ '-' :: (hexByte x.shard_number ++ hexByte x.shard_count)
  else
    tenantIdDisplay x.tenant_id

/-- The `FromStr` impl of `TenantShardId`: length 32 parses as a legacy
tenant id, length 37 splits off bytes `[0,32)` as the tenant and bytes
`[33,37)` as the two shard bytes, anything else is `InvalidStringLength`. -/
def TenantShardId.from_str (s : List Char) : Except FromHexError TenantShardId :=
  if s.length = 32 then
    match tenantIdFromHex s with
    | .error e => .error e
    | .ok t => .ok { tenant_id := t, shard_number := 0, shard_count := 0 }
  else if s.length = 37 then
    match tenantIdFromHex (s.take 32) with
    | .error e => .error e
    | .ok t =>
      match decodeToSlice 2 ((s.drop 33).take 4) with
      | .error e => .error e
      | .ok shard_parts =>
        .ok { tenant_id := t
              shard_number := shard_parts.getD 0 0
              shard_count := shard_parts.getD 1 0 }
  else
    .error .invalidStringLength

/-- An 18-byte buffer (`[u8; 18]`). -/
abbrev Bytes18 := { l : List (Fin 256) // l.length = 18 }

/-- The `From<[u8; 18]>` impl of `TenantShardId`: bytes `[0,16)` are the
tenant identifier, byte 16 the shard number, byte 17 the shard count; no
validation. -/
def TenantShardId.fromBytes18 (b : Bytes18) : TenantShardId :=
  { tenant_id := ⟨b.val.take 16, by simp [b.property]⟩
    shard_number := b.val.getD 16 0
    shard_count := b.val.getD 17 0 }

/-- The non-human-readable branch of `Serialize for TenantShardId`: the
18-byte packed buffer `[tenant bytes(16), number, count]`. -/
def TenantShardId.packed (x : TenantShardId) : List (Fin 256) :=
  x.tenant_id.as_arr ++ [x.shard_number, x.shard_count]

/-- Shard-number/shard-count pair without the tenant (`ShardIndex`). -/
structure ShardIndex where
  shard_number : Fin 256
  shard_count : Fin 256
deriving DecidableEq

/-- Constructor `ShardIndex::new`: pure construction, no validation. -/
def ShardIndex.new (number count : Fin 256) : ShardIndex :=
  { shard_number := number, shard_count := count }

/-- Constructor `ShardIndex::unsharded`: the `(0,0)` sentinel. -/
def ShardIndex.unsharded : ShardIndex :=
  { shard_number := 0, shard_count := 0 }

/-- Method `ShardIndex::is_unsharded`: true iff both fields are zero. -/
def ShardIndex.is_unsharded (x : ShardIndex) : Bool :=
  x.shard_number = 0 ∧ x.shard_count = 0

/-- Method `ShardIndex::get_suffix`: empty when unsharded, else
`format!("-{:02x}{:02x}", number, count)`. -/
def ShardIndex.get_suffix (x : ShardIndex) : List Char :=
  if x.is_unsharded then []
  else '-' :: (hexByte x.shard_number ++ hexByte x.shard_count)

/-- The `Display` impl of `ShardIndex`: `format!("{:02x}{:02x}", number, count)`. -/
def ShardIndex.display (x : ShardIndex) : List Char :=
  hexByte x.shard_number ++ hexByte x.shard_count

/-- The `FromStr` impl of `ShardIndex`: exactly 4 characters decode into
the two shard bytes, anything else is `InvalidStringLength`. -/
def ShardIndex.from_str (s : List Char) : Except FromHexError ShardIndex :=
  if s.length = 4 then
    match decodeToSlice 2 s with
    | .error e => .error e
    | .ok shard_parts =>
      .ok { shard_number := shard_parts.getD 0 0, shard_count := shard_parts.getD 1 0 }
  else
    .error .invalidStringLength

/-- Stripe size in pages (`ShardStripeSize`, a `u32`; only compared against
zero here, so the width plays no role). -/
abbrev ShardStripeSize := Nat

/-- Layout tag (`ShardLayout`, a `u8`). -/
abbrev ShardLayout := Fin 256

/-- Constant `LAYOUT_V1`. -/
def LAYOUT_V1 : ShardLayout := 1

/-- Constant `DEFAULT_STRIPE_SIZE`: 256 MiB / 8 KiB pages. -/
def DEFAULT_STRIPE_SIZE : ShardStripeSize := 256 * 1024 / 8

/-- Validated shard membership descriptor (`ShardIdentity`). -/
structure ShardIdentity where
  layout : ShardLayout
  number : Fin 256
  count : Fin 256
  stripe_size : ShardStripeSize
deriving DecidableEq

/-- Validation failures of `ShardIdentity::new` (`ShardConfigError`). -/
inductive ShardConfigError where
  | InvalidCount : ShardConfigError
  | InvalidNumber : ShardConfigError
  | InvalidStripeSize : ShardConfigError
deriving DecidableEq, Repr

/-- Constructor `ShardIdentity::unsharded`: the legacy sentinel with default
stripe size and layout v1. -/
def ShardIdentity.unsharded : ShardIdentity :=
  { number := 0, count := 0, layout := LAYOUT_V1, stripe_size := DEFAULT_STRIPE_SIZE }

/-- Method `ShardIdentity::is_unsharded`. -/
def ShardIdentity.is_unsharded (x : ShardIdentity) : Bool :=
  x.number = 0 ∧ x.count = 0

/-- Constructor `ShardIdentity::new`: checks, in order, `count == 0`,
`number > count - 1` and `stripe_size == 0`. -/
def ShardIdentity.new (number count : Fin 256) (stripe_size : ShardStripeSize) :
    Except ShardConfigError ShardIdentity :=
  if count.val = 0 then
    .error .InvalidCount
  else if number.val > count.val - 1 then
    .error .InvalidNumber
  else if stripe_size = 0 then
    .error .InvalidStripeSize
  else
    .ok { number := number, count := count, layout := LAYOUT_V1, stripe_size := stripe_size }

theorem hexVal_hexDigitChar : ∀ n : Fin 16, hexVal (hexDigitChar n) = some n := by
  decide

theorem hexEncode_length (bs : List (Fin 256)) : (hexEncode bs).length = 2 * bs.length := by
  induction bs with
  | nil => simp [hexEncode]
  | cons b rest ih => simp [hexEncode, hexByte, ih]; omega

theorem decodePairs_hexEncode (bs : List (Fin 256)) (i : Nat) :
    decodePairs (hexEncode bs) i = .ok bs := by
  induction bs generalizing i with
  | nil => simp [hexEncode, decodePairs]
  | cons b rest ih =>
    simp only [hexEncode, hexByte, List.cons_append, List.nil_append, decodePairs,
      hexVal_hexDigitChar, ih]
    have hval : mkByte ⟨b.val / 16, by have h := b.isLt; omega⟩ ⟨b.val % 16, by omega⟩ = b := by
      apply Fin.ext
      simp [mkByte]
      omega
    rw [hval]
    simp only [List.append_eq, List.nil_append, ih]

theorem decodeToSlice_hexEncode (bs : List (Fin 256)) :
    decodeToSlice bs.length (hexEncode bs) = .ok bs := by
  unfold decodeToSlice
  rw [hexEncode_length]
  rw [if_neg (by omega), if_neg (by omega)]
  exact decodePairs_hexEncode bs 0

theorem tenantIdDisplay_length (t : TenantId) : (tenantIdDisplay t).length = 32 := by
  unfold tenantIdDisplay
  rw [hexEncode_length, t.property]

theorem tenantIdFromHex_display (t : TenantId) :
    tenantIdFromHex (tenantIdDisplay t) = .ok t := by
  have hdec : decodeToSlice 16 (tenantIdDisplay t) = .ok t.val := by
    have h := decodeToSlice_hexEncode t.val
    rw [t.property] at h
    exact h
  unfold tenantIdFromHex
  split
  · rename_i e heq
    rw [hdec] at heq
    exact absurd heq (by simp)
  · rename_i bs heq
    rw [hdec] at heq
    simp only [Except.ok.injEq] at heq
    subst heq
    rfl

theorem packed_length (x : TenantShardId) : (TenantShardId.packed x).length = 18 := by
  simp [TenantShardId.packed, TenantId.as_arr, x.tenant_id.property]

theorem display_sharded (t : TenantId) (n c : Fin 256) (hc : c ≠ 0) :
    TenantShardId.display { tenant_id := t, shard_number := n, shard_count := c } =
      tenantIdDisplay t ++ '-' :: hexEncode [n, c] := by
  simp [TenantShardId.display, hc, hexEncode]

/-- Shared shape lemma for the 37-character branch of
`TenantShardId::from_str`: on `A ++ sep :: B` with `A` of length 32 and `B`
of length 4, the parser decodes `A` as the tenant, ignores `sep`, and
decodes `B` as the two shard bytes. -/
theorem from_str_of_parts (a : List Char) (sep : Char) (b : List Char)
    (t : TenantId) (ps : List (Fin 256))
    (ha : a.length = 32) (hb : b.length = 4)
    (hta : tenantIdFromHex a = .ok t) (hpb : decodeToSlice 2 b = .ok ps) :
    TenantShardId.from_str (a ++ sep :: b) =
      .ok { tenant_id := t, shard_number := ps.getD 0 0, shard_count := ps.getD 1 0 } := by
  have hlen : (a ++ sep :: b).length = 37 := by simp [ha, hb]
  have htake : (a ++ sep :: b).take 32 = a := List.take_left' ha
  have hdrop : (a ++ sep :: b).drop 33 = b := by
    have h33 : (a ++ [sep]).length = 33 := by simp [ha]
    have : a ++ sep :: b = (a ++ [sep]) ++ b := by simp
    rw [this]
    exact List.drop_left' h33
  unfold TenantShardId.from_str
  rw [hlen]
  rw [if_neg (by omega), if_pos rfl]
  rw [htake, hta, hdrop, List.take_of_length_le (by omega), hpb]

/-- Shared legacy-parse lemma: the bare 32-character tenant hex form
parses to the legacy triple `(t, 0, 0)`. -/
theorem from_str_tenantIdDisplay (t : TenantId) :
    TenantShardId.from_str (tenantIdDisplay t) =
      .ok { tenant_id := t, shard_number := 0, shard_count := 0 } := by
  unfold TenantShardId.from_str
  rw [tenantIdDisplay_length, if_pos rfl, tenantIdFromHex_display]

/-- Shared byte-conversion lemma: converting the buffer
`tenant bytes ++ [n, c]` recovers the triple `(t, n, c)`. -/
theorem fromBytes18_append (t : TenantId) (n c : Fin 256) :
    TenantShardId.fromBytes18 ⟨t.val ++ [n, c], by simp [t.property]⟩ =
      { tenant_id := t, shard_number := n, shard_count := c } := by
  unfold TenantShardId.fromBytes18
  have hlen : (t.val).length = 16 := t.property
  have htake : (t.val ++ [n, c]).take 16 = t.val := List.take_left' hlen
  have h16 : (t.val ++ [n, c]).getD 16 0 = n := by
    rw [List.getD_append_right _ _ _ _ (by omega), hlen]
    rfl
  have h17 : (t.val ++ [n, c]).getD 17 0 = c := by
    rw [List.getD_append_right _ _ _ _ (by omega), hlen]
    rfl
  simp only [htake, h16, h17]

/-- C1: for every tenant identifier T, `TenantShardId::unsharded(T)`
displays as exactly T's 32-character hex form with no suffix, and parsing
that string yields tenant T with shard number 0 and shard count 0. -/
theorem C1_unsharded_text_compat (t : TenantId) :
    (TenantShardId.unsharded t).display = tenantIdDisplay t ∧
    (tenantIdDisplay t).length = 32 ∧
    TenantShardId.from_str (tenantIdDisplay t) =
      .ok { tenant_id := t, shard_number := 0, shard_count := 0 } := by
  refine ⟨?_, tenantIdDisplay_length t, from_str_tenantIdDisplay t⟩
  simp [TenantShardId.display, TenantShardId.unsharded]

/-- C2: for every tenant T and shard pair with `1 ≤ c` and `n < c`, the
textual encoding of `TenantShardId{T,n,c}` parses back to the original
triple, and the 18-byte binary encoding converts back to the original
triple. -/
theorem C2_roundtrips (t : TenantId) (n c : Fin 256)
    (hc : 1 ≤ c.val) (hn : n.val < c.val) :
    TenantShardId.from_str
        (TenantShardId.display { tenant_id := t, shard_number := n, shard_count := c }) =
      .ok { tenant_id := t, shard_number := n, shard_count := c } ∧
    TenantShardId.fromBytes18
        ⟨TenantShardId.packed { tenant_id := t, shard_number := n, shard_count := c },
         packed_length _⟩ =
      { tenant_id := t, shard_number := n, shard_count := c } := by
  constructor
  · have hc0 : c ≠ 0 := by
      intro h
      rw [h] at hc
      simp at hc
    rw [display_sharded t n c hc0]
    have henc : decodeToSlice 2 (hexEncode [n, c]) = .ok [n, c] := by
      have h := decodeToSlice_hexEncode [n, c]
      simpa using h
    rw [from_str_of_parts (tenantIdDisplay t) '-' (hexEncode [n, c]) t [n, c]
      (tenantIdDisplay_length t) (by simp [hexEncode_length]) (tenantIdFromHex_display t) henc]
    simp
  · exact fromBytes18_append t n c

theorem C2_roundtrips_witness :
    1 ≤ (10 : Fin 256).val ∧ (7 : Fin 256).val < (10 : Fin 256).val ∧
    (TenantShardId.from_str
        (TenantShardId.display
          { tenant_id := ⟨List.replicate 16 3, by decide⟩, shard_number := 7, shard_count := 10 }) =
      .ok { tenant_id := ⟨List.replicate 16 3, by decide⟩, shard_number := 7, shard_count := 10 } ∧
    TenantShardId.fromBytes18
        ⟨TenantShardId.packed
          { tenant_id := ⟨List.replicate 16 3, by decide⟩, shard_number := 7, shard_count := 10 },
         packed_length _⟩ =
      { tenant_id := ⟨List.replicate 16 3, by decide⟩, shard_number := 7, shard_count := 10 }) :=
  ⟨by decide, by decide,
   C2_roundtrips ⟨List.replicate 16 3, by decide⟩ 7 10 (by decide) (by decide)⟩

/-- C8: the separator position of a 37-character input is not validated:
for every 32-character prefix that decodes as a tenant id and every
4-character tail that hex-decodes, parsing succeeds for any character in
position 32. -/
theorem C8_separator_unchecked (a : List Char) (sep : Char) (b : List Char)
    (t : TenantId) (ps : List (Fin 256))
    (ha : a.length = 32) (hb : b.length = 4)
    (hta : tenantIdFromHex a = .ok t) (hpb : decodeToSlice 2 b = .ok ps) :
    TenantShardId.from_str (a ++ sep :: b) =
      .ok { tenant_id := t, shard_number := ps.getD 0 0, shard_count := ps.getD 1 0 } :=
  from_str_of_parts a sep b t ps ha hb hta hpb

theorem C8_separator_unchecked_witness :
    (List.replicate 32 '0').length = 32 ∧ (['0', '7', '0', 'a'] : List Char).length = 4 ∧
    tenantIdFromHex (List.replicate 32 '0') = .ok ⟨List.replicate 16 0, by decide⟩ ∧
    decodeToSlice 2 ['0', '7', '0', 'a'] = .ok [7, 10] ∧
    TenantShardId.from_str (List.replicate 32 '0' ++ 'Z' :: ['0', '7', '0', 'a']) =
      .ok { tenant_id := ⟨List.replicate 16 0, by decide⟩,
            shard_number := ([7, 10] : List (Fin 256)).getD 0 0,
            shard_count := ([7, 10] : List (Fin 256)).getD 1 0 } :=
  ⟨by decide, by decide, by decide, by decide,
   C8_separator_unchecked (List.replicate 32 '0') 'Z' ['0', '7', '0', 'a']
     ⟨List.replicate 16 0, by decide⟩ [7, 10] (by decide) (by decide) (by decide) (by decide)⟩

theorem cmpU8_eq_iff (a b : Fin 256) : cmpU8 a b = .eq ↔ a = b := by
  unfold cmpU8
  split_ifs with h1 h2 <;> simp [Fin.ext_iff] <;> omega

theorem cmpU8_gt_iff_lt (a b : Fin 256) : cmpU8 a b = .gt ↔ cmpU8 b a = .lt := by
  unfold cmpU8
  split_ifs with h1 h2 h3 <;> simp <;> omega

theorem cmpBytes_eq_iff : ∀ (a b : List (Fin 256)), cmpBytes a b = .eq ↔ a = b
  | [], [] => by simp [cmpBytes]
  | [], _ :: _ => by simp [cmpBytes]
  | _ :: _, [] => by simp [cmpBytes]
  | x :: xs, y :: ys => by
    simp only [cmpBytes]
    cases h : cmpU8 x y with
    | eq =>
      have hxy : x = y := (cmpU8_eq_iff x y).mp h
      subst hxy
      rw [cmpBytes_eq_iff xs ys]
      simp
    | lt =>
      have hxy : x ≠ y := by
        intro he
        rw [(cmpU8_eq_iff x y).mpr he] at h
        exact absurd h (by simp)
      simp [hxy]
    | gt =>
      have hxy : x ≠ y := by
        intro he
        rw [(cmpU8_eq_iff x y).mpr he] at h
        exact absurd h (by simp)
      simp [hxy]

theorem cmpBytes_gt_iff_lt : ∀ (a b : List (Fin 256)), cmpBytes a b = .gt ↔ cmpBytes b a = .lt
  | [], [] => by simp [cmpBytes]
  | [], _ :: _ => by simp [cmpBytes]
  | _ :: _, [] => by simp [cmpBytes]
  | x :: xs, y :: ys => by
    simp only [cmpBytes]
    cases h : cmpU8 x y with
    | eq =>
      have hxy : x = y := (cmpU8_eq_iff x y).mp h
      subst hxy
      rw [(cmpU8_eq_iff x x).mpr rfl]
      exact cmpBytes_gt_iff_lt xs ys
    | lt =>
      have hgt : cmpU8 y x = .gt := by
        rw [cmpU8_gt_iff_lt]
        exact h
      rw [hgt]
      simp
    | gt =>
      have hlt : cmpU8 y x = .lt := (cmpU8_gt_iff_lt x y).mp h
      rw [hlt]
      simp

theorem cmpU8_zero_left_ne_gt (m : Fin 256) : cmpU8 0 m ≠ .gt := by
  have h0 : (0 : Fin 256).val = 0 := rfl
  unfold cmpU8
  split_ifs with h1 h2 <;> simp <;> omega

theorem cmpU8_max_right_ne_gt (m : Fin 256) : cmpU8 m 255 ≠ .gt := by
  have h255 : (255 : Fin 256).val = 255 := rfl
  have hm := m.isLt
  unfold cmpU8
  split_ifs with h1 h2 <;> simp <;> omega

/-- C4: the derived ordering of `TenantShardId` is lexicographic on
`(tenant_id, shard_number, shard_count)` in that field order, and the
inclusive range returned by `tenant_range(T)` contains exactly the
`TenantShardId`s whose tenant field is T. -/
theorem C4_tenant_range (t : TenantId) (x : TenantShardId) :
    (TenantShardId.le (TenantShardId.tenant_range t).1 x = true ∧
       TenantShardId.le x (TenantShardId.tenant_range t).2 = true ↔
     x.tenant_id = t) ∧
    (∀ y z : TenantShardId,
      TenantShardId.cmp y z =
        (cmpBytes y.tenant_id.val z.tenant_id.val).then
          ((cmpU8 y.shard_number z.shard_number).then (cmpU8 y.shard_count z.shard_count))) := by
  constructor
  · unfold TenantShardId.le TenantShardId.tenant_range TenantShardId.cmp
    simp only [decide_eq_true_eq]
    constructor
    · rintro ⟨hlo, hhi⟩
      cases h : cmpBytes t.val x.tenant_id.val with
      | eq =>
        exact Subtype.ext ((cmpBytes_eq_iff t.val x.tenant_id.val).mp h).symm
      | lt =>
        exfalso
        have hswap : cmpBytes x.tenant_id.val t.val = .gt := by
          rw [cmpBytes_gt_iff_lt]
          exact h
        rw [hswap] at hhi
        exact hhi rfl
      | gt =>
        exfalso
        rw [h] at hlo
        exact hlo rfl
    · intro he
      subst he
      rw [(cmpBytes_eq_iff _ _).mpr rfl]
      constructor
      · cases h1 : cmpU8 0 x.shard_number with
        | lt => simp
        | gt => exact absurd h1 (cmpU8_zero_left_ne_gt _)
        | eq =>
          cases h2 : cmpU8 0 x.shard_count with
          | lt => simp
          | gt => exact absurd h2 (cmpU8_zero_left_ne_gt _)
          | eq => simp
      · cases h1 : cmpU8 x.shard_number 255 with
        | lt => simp
        | gt => exact absurd h1 (cmpU8_max_right_ne_gt _)
        | eq =>
          cases h2 : cmpU8 x.shard_count 255 with
          | lt => simp
          | gt => exact absurd h2 (cmpU8_max_right_ne_gt _)
          | eq => simp
  · intro y z
    unfold TenantShardId.cmp Ordering.then
    cases cmpBytes y.tenant_id.val z.tenant_id.val <;>
      cases cmpU8 y.shard_number z.shard_number <;> rfl

/-- C5: `ShardIdentity::new` evaluates its checks in order with the first
failure winning — `InvalidCount` for `count == 0`, else `InvalidNumber`
for `number >= count`, else `InvalidStripeSize` for `stripe_size == 0`,
else success tagged with layout version 1 — and in particular it succeeds
for number 254, count 255, stripe size 1. -/
theorem C5_new_validation (number count : Fin 256) (stripe_size : ShardStripeSize) :
    ShardIdentity.new number count stripe_size =
      (if count.val = 0 then .error .InvalidCount
       else if count.val ≤ number.val then .error .InvalidNumber
       else if stripe_size = 0 then .error .InvalidStripeSize
       else .ok { layout := LAYOUT_V1, number := number, count := count,
                  stripe_size := stripe_size }) ∧
    ShardIdentity.new 254 255 1 =
      .ok { layout := LAYOUT_V1, number := 254, count := 255, stripe_size := 1 } := by
  constructor
  · unfold ShardIdentity.new
    split_ifs <;> first | rfl | omega
  · decide

/-- C6: the binary serialization of any `TenantShardId` is exactly the
18-byte buffer of the 16 raw tenant-id bytes, the shard number byte and
the shard count byte, and a legacy id serializes to the tenant bytes
followed by two zero bytes, never a shortened form. -/
theorem C6_binary_layout (x : TenantShardId) :
    TenantShardId.packed x = x.tenant_id.as_arr ++ [x.shard_number, x.shard_count] ∧
    (TenantShardId.packed x).length = 18 ∧
    (TenantShardId.packed x).take 16 = x.tenant_id.as_arr ∧
    (TenantShardId.packed x).drop 16 = [x.shard_number, x.shard_count] ∧
    (∀ t : TenantId,
      TenantShardId.packed (TenantShardId.unsharded t) = t.as_arr ++ [0, 0]) := by
  refine ⟨rfl, packed_length x, ?_, ?_, fun t => rfl⟩
  · exact List.take_left' x.tenant_id.property
  · exact List.drop_left' x.tenant_id.property

/-- C10: `ShardIndex::is_unsharded` is true exactly when both fields are
zero, so a value with `count == 0` but `number != 0` is treated as
sharded: `get_suffix` yields the non-empty five-character suffix
`-NN00` for it, and the empty suffix is produced exactly for the
`(0, 0)` sentinel. -/
theorem C10_suffix_sentinel (n c : Fin 256) :
    (ShardIndex.is_unsharded { shard_number := n, shard_count := c } = true ↔
      n = 0 ∧ c = 0) ∧
    (n ≠ 0 →
      ShardIndex.get_suffix { shard_number := n, shard_count := 0 } =
        '-' :: (hexByte n ++ ['0', '0']) ∧
      (ShardIndex.get_suffix { shard_number := n, shard_count := 0 }).length = 5) ∧
    (ShardIndex.get_suffix { shard_number := n, shard_count := c } = [] ↔
      n = 0 ∧ c = 0) := by
  refine ⟨by simp [ShardIndex.is_unsharded], ?_, ?_⟩
  · intro hn
    have hnu : ShardIndex.is_unsharded { shard_number := n, shard_count := 0 } = false := by
      simp [ShardIndex.is_unsharded, hn]
    constructor
    · rw [ShardIndex.get_suffix, hnu]
      simp
      rfl
    · rw [ShardIndex.get_suffix, hnu]
      simp [hexByte]
  · rw [ShardIndex.get_suffix]
    cases hu : ShardIndex.is_unsharded { shard_number := n, shard_count := c } with
    | true =>
      simp only [ShardIndex.is_unsharded, decide_eq_true_eq] at hu
      simp [hu]
    | false =>
      simp only [ShardIndex.is_unsharded, decide_eq_true_eq] at hu
      simp only [Bool.false_eq_true, if_false]
      constructor
      · intro h
        exact absurd h (by simp)
      · intro h
        exact absurd h (by simpa using hu)

theorem C10_suffix_sentinel_witness :
    (1 : Fin 256) ≠ 0 ∧
    ShardIndex.get_suffix { shard_number := 1, shard_count := 0 } =
      '-' :: (hexByte 1 ++ ['0', '0']) ∧
    (ShardIndex.get_suffix { shard_number := 1, shard_count := 0 }).length = 5 :=
  ⟨by decide, ((C10_suffix_sentinel 1 0).2.1 (by decide)).1,
   ((C10_suffix_sentinel 1 0).2.1 (by decide)).2⟩

/-- C9: a `TenantShardId` with `shard_count == 0` and any shard number —
constructible through the unvalidated 18-byte conversion — displays as the
bare tenant hex form, silently discarding the shard number, so the textual
encode-then-decode round trip fails for every such value with a nonzero
shard number. -/
theorem C9_legacy_display_discards_number (t : TenantId) (n : Fin 256) :
    TenantShardId.fromBytes18 ⟨t.val ++ [n, 0], by simp [t.property]⟩ =
      { tenant_id := t, shard_number := n, shard_count := 0 } ∧
    TenantShardId.display { tenant_id := t, shard_number := n, shard_count := 0 } =
      tenantIdDisplay t ∧
    (n ≠ 0 →
      TenantShardId.from_str
          (TenantShardId.display { tenant_id := t, shard_number := n, shard_count := 0 }) =
        .ok { tenant_id := t, shard_number := 0, shard_count := 0 } ∧
      ({ tenant_id := t, shard_number := 0, shard_count := 0 } : TenantShardId) ≠
        { tenant_id := t, shard_number := n, shard_count := 0 }) := by
  have hdisp :
      TenantShardId.display { tenant_id := t, shard_number := n, shard_count := 0 } =
        tenantIdDisplay t := by
    simp [TenantShardId.display]
  refine ⟨fromBytes18_append t n 0, hdisp, fun hn => ⟨?_, ?_⟩⟩
  · rw [hdisp]
    exact from_str_tenantIdDisplay t
  · intro h
    have := congrArg TenantShardId.shard_number h
    simp at this
    exact hn this.symm

theorem C9_legacy_display_discards_number_witness :
    (1 : Fin 256) ≠ 0 ∧
    (TenantShardId.from_str
        (TenantShardId.display
          { tenant_id := ⟨List.replicate 16 0, by decide⟩, shard_number := 1,
            shard_count := 0 }) =
      .ok { tenant_id := ⟨List.replicate 16 0, by decide⟩, shard_number := 0,
            shard_count := 0 } ∧
    ({ tenant_id := ⟨List.replicate 16 0, by decide⟩, shard_number := 0,
       shard_count := 0 } : TenantShardId) ≠
      { tenant_id := ⟨List.replicate 16 0, by decide⟩, shard_number := 1,
        shard_count := 0 }) :=
  ⟨by decide,
   (C9_legacy_display_discards_number ⟨List.replicate 16 0, by decide⟩ 1).2.2 (by decide)⟩

/-- C3 counterexample: the 37-character textual decoder accepts a shard
suffix with count byte zero and a nonzero number byte, producing a
`TenantShardId` with `shard_count == 0` but `shard_number == 1`, so not
every decoder-produced value satisfies the legacy invariant. -/
theorem C3_counterexample :
    TenantShardId.from_str (List.replicate 32 '0' ++ '-' :: ['0', '1', '0', '0']) =
      .ok { tenant_id := ⟨List.replicate 16 0, by decide⟩, shard_number := 1,
            shard_count := 0 } ∧
    (1 : Fin 256) ≠ 0 := by
  constructor
  · decide
  · decide

/-- C3 (amended): the constructor `unsharded` and the 32-character textual
parse always satisfy the invariant that `shard_count == 0` implies
`shard_number == 0` (the 37-character parse and the 18-byte conversion are
unvalidated and need not). -/
theorem C3_invariant_validated_paths (t : TenantId) (s : List Char) (x : TenantShardId)
    (h32 : s.length = 32) (hok : TenantShardId.from_str s = .ok x) :
    ((TenantShardId.unsharded t).shard_count = 0 →
      (TenantShardId.unsharded t).shard_number = 0) ∧
    (x.shard_count = 0 → x.shard_number = 0) ∧
    x.shard_number = 0 ∧ x.shard_count = 0 := by
  unfold TenantShardId.from_str at hok
  rw [if_pos h32] at hok
  cases hth : tenantIdFromHex s with
  | error e =>
    rw [hth] at hok
    exact absurd hok (by simp)
  | ok th =>
    rw [hth] at hok
    simp only [Except.ok.injEq] at hok
    subst hok
    exact ⟨fun _ => rfl, fun _ => rfl, rfl, rfl⟩

theorem C3_invariant_validated_paths_witness :
    (List.replicate 32 '0').length = 32 ∧
    TenantShardId.from_str (List.replicate 32 '0') =
      .ok { tenant_id := ⟨List.replicate 16 0, by decide⟩, shard_number := 0,
            shard_count := 0 } ∧
    (({ tenant_id := ⟨List.replicate 16 0, by decide⟩, shard_number := 0,
        shard_count := 0 } : TenantShardId).shard_count = 0 →
      ({ tenant_id := ⟨List.replicate 16 0, by decide⟩, shard_number := 0,
         shard_count := 0 } : TenantShardId).shard_number = 0) :=
  ⟨by decide, by decide,
   (C3_invariant_validated_paths ⟨List.replicate 16 0, by decide⟩ (List.replicate 32 '0')
     { tenant_id := ⟨List.replicate 16 0, by decide⟩, shard_number := 0, shard_count := 0 }
     (by decide) (by decide)).2.1⟩

theorem decodePairs_error_shape : ∀ (cs : List Char) (i : Nat) (e : FromHexError),
    cs.length % 2 = 0 → decodePairs cs i = .error e →
    ∃ c j, e = .invalidHexCharacter c j
  | [], _, _, _, h => by simp [decodePairs] at h
  | [_], _, _, hev, _ => by simp at hev
  | c1 :: c2 :: rest, i, e, hev, h => by
    simp only [decodePairs] at h
    cases h1 : hexVal c1 with
    | none =>
      rw [h1] at h
      simp only [Except.error.injEq] at h
      exact ⟨c1, i, h.symm⟩
    | some hi =>
      rw [h1] at h
      cases h2 : hexVal c2 with
      | none =>
        rw [h2] at h
        simp only [Except.error.injEq] at h
        exact ⟨c2, i + 1, h.symm⟩
      | some lo =>
        rw [h2] at h
        cases h3 : decodePairs rest (i + 2) with
        | error e2 =>
          rw [h3] at h
          simp only [Except.error.injEq] at h
          subst h
          have hev2 : rest.length % 2 = 0 := by
            simp only [List.length_cons] at hev
            omega
          exact decodePairs_error_shape rest (i + 2) e2 hev2 h3
        | ok bs =>
          rw [h3] at h
          exact absurd h (by simp)

theorem decodePairs_not_ok : ∀ (cs : List Char) (i : Nat),
    (∃ c ∈ cs, hexVal c = none) → ∀ bs, decodePairs cs i ≠ .ok bs
  | [], _, hbad, _ => by simp at hbad
  | [c], i, _, bs => by simp [decodePairs]
  | c1 :: c2 :: rest, i, hbad, bs => by
    simp only [decodePairs]
    cases h1 : hexVal c1 with
    | none => simp
    | some hi =>
      cases h2 : hexVal c2 with
      | none => simp
      | some lo =>
        cases h3 : decodePairs rest (i + 2) with
        | error e => simp
        | ok bs2 =>
          exfalso
          obtain ⟨c, hmem, hc⟩ := hbad
          have hrest : c ∈ rest := by
            rcases hmem with _ | ⟨_, hmem2⟩
            · rw [hc] at h1
              exact absurd h1 (by simp)
            · rcases hmem2 with _ | ⟨_, hmem3⟩
              · rw [hc] at h2
                exact absurd h2 (by simp)
              · exact hmem3
          exact decodePairs_not_ok rest (i + 2) ⟨c, hrest, hc⟩ bs2 h3

theorem decodeToSlice_error_shape (outLen : Nat) (cs : List Char) (e : FromHexError)
    (hlen : cs.length = 2 * outLen) (herr : decodeToSlice outLen cs = .error e) :
    ∃ c j, e = .invalidHexCharacter c j := by
  unfold decodeToSlice at herr
  rw [if_neg (by omega), if_neg (by omega)] at herr
  exact decodePairs_error_shape cs 0 e (by omega) herr

theorem decodeToSlice_invalidHex (outLen : Nat) (cs : List Char)
    (hlen : cs.length = 2 * outLen) (hbad : ∃ c ∈ cs, hexVal c = none) :
    ∃ c j, decodeToSlice outLen cs = .error (.invalidHexCharacter c j) := by
  unfold decodeToSlice
  rw [if_neg (by omega), if_neg (by omega)]
  cases hd : decodePairs cs 0 with
  | error e =>
    obtain ⟨c, j, he⟩ := decodePairs_error_shape cs 0 e (by omega) hd
    exact ⟨c, j, by rw [he]⟩
  | ok bs => exact absurd hd (decodePairs_not_ok cs 0 hbad bs)

theorem tenantIdFromHex_error (cs : List Char) (e : FromHexError)
    (h : decodeToSlice 16 cs = .error e) : tenantIdFromHex cs = .error e := by
  unfold tenantIdFromHex
  split
  · rename_i e2 heq
    rw [h] at heq
    simp only [Except.error.injEq] at heq
    rw [heq]
  · rename_i bs heq
    rw [h] at heq
    exact absurd heq (by simp)

theorem tenantIdFromHex_error_shape (cs : List Char) (e : FromHexError)
    (hlen : cs.length = 32) (herr : tenantIdFromHex cs = .error e) :
    ∃ c j, e = .invalidHexCharacter c j := by
  unfold tenantIdFromHex at herr
  split at herr
  · rename_i e2 heq
    simp only [Except.error.injEq] at herr
    subst herr
    exact decodeToSlice_error_shape 16 cs e2 (by omega) heq
  · exact absurd herr (by simp)

/-- C7: textual decoding never accepts, pads or truncates wrong-length
input — `ShardIndex::from_str` fails with `InvalidStringLength` for every
length other than 4, `TenantShardId::from_str` fails with
`InvalidStringLength` for every length other than 32 or 37 — and inputs
of an accepted length whose hex-parsed positions contain a non-hex
character fail with an invalid-hex-character error. -/
theorem C7_decode_errors :
    (∀ s : List Char, s.length ≠ 4 →
      ShardIndex.from_str s = .error .invalidStringLength) ∧
    (∀ s : List Char, s.length ≠ 32 → s.length ≠ 37 →
      TenantShardId.from_str s = .error .invalidStringLength) ∧
    (∀ s : List Char, s.length = 4 → (∃ c ∈ s, hexVal c = none) →
      ∃ ch j, ShardIndex.from_str s = .error (.invalidHexCharacter ch j)) ∧
    (∀ s : List Char, s.length = 32 → (∃ c ∈ s, hexVal c = none) →
      ∃ ch j, TenantShardId.from_str s = .error (.invalidHexCharacter ch j)) ∧
    (∀ s : List Char, s.length = 37 →
      ((∃ c ∈ s.take 32, hexVal c = none) ∨ (∃ c ∈ s.drop 33, hexVal c = none)) →
      ∃ ch j, TenantShardId.from_str s = .error (.invalidHexCharacter ch j)) := by
  have htake32len : ∀ s : List Char, s.length = 37 → (s.take 32).length = 32 := by
    intro s h
    simp [List.length_take, h]
  have hdrop33len : ∀ s : List Char, s.length = 37 → (s.drop 33).length = 4 := by
    intro s h
    simp [List.length_drop, h]
  refine ⟨?_, ?_, ?_, ?_, ?_⟩
  · intro s hlen
    unfold ShardIndex.from_str
    rw [if_neg hlen]
  · intro s h32 h37
    unfold TenantShardId.from_str
    rw [if_neg h32, if_neg h37]
  · intro s hlen hbad
    obtain ⟨ch, j, herr⟩ := decodeToSlice_invalidHex 2 s (by omega) hbad
    refine ⟨ch, j, ?_⟩
    unfold ShardIndex.from_str
    rw [if_pos hlen, herr]
  · intro s hlen hbad
    obtain ⟨ch, j, herr⟩ := decodeToSlice_invalidHex 16 s (by omega) hbad
    refine ⟨ch, j, ?_⟩
    unfold TenantShardId.from_str
    rw [if_pos hlen, tenantIdFromHex_error s _ herr]
  · intro s hlen hbad
    unfold TenantShardId.from_str
    rw [if_neg (by omega), if_pos hlen]
    cases hth : tenantIdFromHex (s.take 32) with
    | error e =>
      obtain ⟨ch, j, he⟩ := tenantIdFromHex_error_shape (s.take 32) e (htake32len s hlen) hth
      exact ⟨ch, j, by rw [he]⟩
    | ok t =>
      rcases hbad with hbad32 | hbad4
      · exfalso
        obtain ⟨ch, j, herr⟩ :=
          decodeToSlice_invalidHex 16 (s.take 32) (by rw [htake32len s hlen]) hbad32
        rw [tenantIdFromHex_error _ _ herr] at hth
        exact absurd hth (by simp)
      · have htk : (s.drop 33).take 4 = s.drop 33 :=
          List.take_of_length_le (by rw [hdrop33len s hlen])
        rw [htk]
        obtain ⟨ch, j, herr⟩ :=
          decodeToSlice_invalidHex 2 (s.drop 33) (by rw [hdrop33len s hlen]) hbad4
        exact ⟨ch, j, by rw [herr]⟩

theorem C7_decode_errors_witness :
    ShardIndex.from_str ['a'] = .error .invalidStringLength ∧
    TenantShardId.from_str ['a', 'b', 'c'] = .error .invalidStringLength ∧
    (∃ ch j, ShardIndex.from_str ['0', 'g', '1', '1'] =
      .error (.invalidHexCharacter ch j)) ∧
    (∃ ch j, TenantShardId.from_str ('g' :: List.replicate 31 '0') =
      .error (.invalidHexCharacter ch j)) ∧
    (∃ ch j, TenantShardId.from_str (List.replicate 32 '0' ++ '-' :: ['0', 'g', '0', '0']) =
      .error (.invalidHexCharacter ch j)) :=
  ⟨C7_decode_errors.1 ['a'] (by decide),
   C7_decode_errors.2.1 ['a', 'b', 'c'] (by decide) (by decide),
   C7_decode_errors.2.2.1 ['0', 'g', '1', '1'] (by decide) ⟨'g', by decide, by decide⟩,
   C7_decode_errors.2.2.2.1 ('g' :: List.replicate 31 '0') (by decide)
     ⟨'g', by decide, by decide⟩,
   C7_decode_errors.2.2.2.2 (List.replicate 32 '0' ++ '-' :: ['0', 'g', '0', '0'])
     (by decide) (Or.inr ⟨'g', by decide, by decide⟩)⟩

end Neon
